import Mathlib

/-!
Verification of the technical-signal derivation and pipeline glue of the
Gen-AI stock analyst (`src/app.py`).

Prices are modelled as `List ℚ` (chronologically ascending closing prices).
The indicator internals (pandas `rolling(..).mean()`, and `RSIIndicator` /
`MACD` from the external `ta` library) are not part of the repository's
sources; where their behaviour decides a property they are modelled from the
specification's formulas, as noted on each definition.  The decision logic
of `app.py` itself (threshold comparisons, try/except degradation, prompt
assembly) is translated directly from the source.
-/

attribute [local semireducible] Rat.add Rat.sub Rat.mul Rat.inv

namespace StockAnalyst

/-- Trailing simple moving average, last value only: `close.rolling(w).mean().iloc[-1]`
(app.py lines 95-96).  Pandas yields NaN when fewer than `w` observations exist;
NaN is modelled as `none`. -/
def smaLast (w : ℕ) (prices : List ℚ) : Option ℚ :=
  if w = 0 ∨ prices.length < w then none
  else some ((prices.drop (prices.length - w)).sum / w)

/-- Pandas `>` comparison on possibly-NaN values: any comparison with NaN is `false`. -/
def nanGT : Option ℚ → Option ℚ → Bool
  | some a, some b => decide (b < a)
  | _, _ => false

/-- The SMA trend signal (app.py lines 95-101): `"Bullish (Golden Cross Trend)"` when
the last 50-period rolling mean compares strictly greater than the last 200-period
rolling mean, else `"Bearish (Below Long Term Trend)"`.  `none` models the
IndexError of `iloc[-1]` on an empty series (that branch is unreachable in the
pipeline, which checks `data.empty` first). -/
def sma_signal (prices : List ℚ) : Option String :=
  if prices.isEmpty then none
  else some (if nanGT (smaLast 50 prices) (smaLast 200 prices)
    then "Bullish (Golden Cross Trend)"
    else "Bearish (Below Long Term Trend)")

/-- Successive price changes `close.diff(1)` (without the leading NaN):
entry `i` is `prices[i+1] - prices[i]`. -/
def priceChanges (prices : List ℚ) : List ℚ :=
  List.zipWith (· - ·) (prices.drop 1) prices

/-- The trailing window of (up to) 14 price changes used by the 14-period oscillator. -/
def rsiWindow (prices : List ℚ) : List ℚ :=
  (priceChanges prices).drop ((priceChanges prices).length - 14)

/-- Modelled from the spec: average gain of the 14-period oscillator window.  The
oscillator computation lives in the external `ta` library (`RSIIndicator`), which is
not part of this repository's sources; the spec prescribes rolling averages of the
positive price changes over the trailing window. -/
def avgGain (prices : List ℚ) : ℚ :=
  ((rsiWindow prices).map (fun c => max c 0)).sum / 14

/-- Modelled from the spec: average loss of the 14-period oscillator window
(rolling average of the negated negative price changes). -/
def avgLoss (prices : List ℚ) : ℚ :=
  ((rsiWindow prices).map (fun c => max (-c) 0)).sum / 14

/-- Modelled from the spec: the 14-period relative-strength oscillator value
`100 - 100/(1 + avgGain/avgLoss)` (app.py line 104 delegates to the external
`ta.momentum.RSIIndicator`).  Per the spec, `avgLoss = 0` on a rising window is
handled as 100 (fully overbought) rather than a division-by-zero crash, and the
`avgGain = avgLoss = 0` case (constant series) is the neutral value 50. -/
def rsi (prices : List ℚ) : ℚ :=
  if avgLoss prices = 0 then (if avgGain prices = 0 then 50 else 100)
  else 100 - 100 / (1 + avgGain prices / avgLoss prices)

/-- The oscillator classification (app.py lines 105-110): `> 70` overbought,
`< 30` oversold, otherwise neutral. -/
def rsi_signal (prices : List ℚ) : Option String :=
  if prices.isEmpty then none
  else some (if rsi prices > 70 then "Overbought – Possible Correction"
    else if rsi prices < 30 then "Oversold – Possible Reversal"
    else "Neutral Momentum")

/-- Exponential moving average tail: given the previous EMA value, folds
`y = x*k + prev*(1-k)` over the remaining prices, collecting every value. -/
def emaFrom (k : ℚ) (prev : ℚ) : List ℚ → List ℚ
  | [] => []
  | x :: xs => (x * k + prev * (1 - k)) :: emaFrom k (x * k + prev * (1 - k)) xs

/-- Modelled from the spec: the exponential moving average series with window `w`,
seeded at the first price, with smoothing factor `k = 2/(w+1)`:
`ema[0] = price[0]`, `ema[t] = price[t]*k + ema[t-1]*(1-k)`.
(The `MACD` indicator of the external `ta` library, app.py line 113, is not part
of this repository's sources.) -/
def emaSeries (w : ℕ) (prices : List ℚ) : List ℚ :=
  match prices with
  | [] => []
  | x :: xs => x :: emaFrom (2 / (w + 1)) x xs

/-- The convergence (MACD) line: fast window-12 EMA minus slow window-26 EMA. -/
def macdLine (prices : List ℚ) : List ℚ :=
  List.zipWith (· - ·) (emaSeries 12 prices) (emaSeries 26 prices)

/-- The signal line: window-9 EMA of the convergence line. -/
def signalLine (prices : List ℚ) : List ℚ :=
  emaSeries 9 (macdLine prices)

/-- The convergence signal (app.py lines 113-120): `"Bullish Momentum"` when the most
recent convergence-line value is strictly greater than the most recent signal-line
value, else `"Bearish Momentum"`.  `none` models `iloc[-1]` on an empty series. -/
def macd_signal (prices : List ℚ) : Option String :=
  match (macdLine prices).getLast?, (signalLine prices).getLast? with
  | some m, some s => some (if m > s then "Bullish Momentum" else "Bearish Momentum")
  | _, _ => none

/-- The spec's EMA recurrence, written as direct recursion over the time index:
`ema[0] = f 0`, `ema[t+1] = f (t+1) * k + ema[t] * (1-k)`. -/
def emaRecF (k : ℚ) (f : ℕ → ℚ) : ℕ → ℚ
  | 0 => f 0
  | t + 1 => f (t + 1) * k + emaRecF k f t * (1 - k)

/-! ## The pipeline glue of `app.py` (button action, lines 25-173)

External gateway results are modelled as `Option`: `none` is a raised
exception.  `ticker.info` (line 33) is read outside every `try` block, so an
exception there aborts the run; the news block (lines 64-77) and the
technicals block (lines 82-131) catch all exceptions and degrade. -/

/-- A news item as consumed by app.py lines 67-69: optional title and publisher. -/
structure NewsItem where
  title : Option String
  publisher : Option String

/-- The fundamentals dictionary `ticker.info`, as key/value pairs. -/
def InfoDict : Type := List (String × String)

/-- `info.get(key, "N/A")` (app.py lines 35-44). -/
def infoGet (info : InfoDict) (key : String) : String :=
  ((List.lookup key info).getD "N/A")

/-- The news text accumulated by app.py lines 63-77: on an exception (`none`) or an
empty list, the fixed placeholder; otherwise the titles of the first 5 items, each
followed by a newline. -/
def buildNewsText : Option (List NewsItem) → String
  | none => "No major recent news available."
  | some news =>
    if news.length > 0 then
      (news.take 5).foldl (fun acc n => acc ++ (n.title.getD "No Title Available") ++ "\n") ""
    else "No major recent news available."

/-- The four technical values carried into the prompt. -/
structure Technicals where
  sma_signal : String
  rsi_signal : String
  macd_signal : String
  rsi : ℚ

/-- The technicals block of app.py lines 82-131: an exception anywhere in the `try`
block (history fetch or indicator computation, modelled by `none`) or an empty
history degrades all three signals to `"N/A"` and the oscillator value to `0`;
otherwise the three indicator signals are computed from the closing prices. -/
def buildTechnicals : Option (List ℚ) → Technicals
  | none => ⟨"N/A", "N/A", "N/A", 0⟩
  | some prices =>
    if prices.isEmpty then ⟨"N/A", "N/A", "N/A", 0⟩
    else ⟨(sma_signal prices).getD "N/A", (rsi_signal prices).getD "N/A",
          (macd_signal prices).getD "N/A", rsi prices⟩

/-- The fundamentals section of the prompt f-string (app.py lines 140-152). -/
def promptFunds (name sector industry market_cap rev profit pe pb roe debt : String) : String :=
  "\n        You are a professional equity research analyst.\n        Analyze this stock fundamentally and technically and give a final investment view.\n\n        Company: "
    ++ name ++ "\n        Sector: " ++ sector ++ "\n        Industry: " ++ industry
    ++ "\n        Market Cap: " ++ market_cap ++ "\n        Revenue: " ++ rev
    ++ "\n        Profit: " ++ profit ++ "\n        PE: " ++ pe ++ "\n        PB: " ++ pb
    ++ "\n        ROE: " ++ roe ++ "\n        Debt to Equity: " ++ debt

/-- The text between the fundamentals and the news text (app.py lines 154-155). -/
def newsHeadlinesLabel : String := "\n\n        News Headlines:\n        "

/-- The text between the news text and the technicals block (app.py lines 157-158). -/
def technicalsLabel : String := "\n\n        Technicals:\n        "

/-- The technicals section of the prompt f-string (app.py lines 158-160). -/
def promptTech (sma rsiSig : String) (rsiVal : ℚ) (macd : String) : String :=
  "SMA Trend: " ++ sma ++ "\n        RSI: " ++ rsiSig ++ " (" ++ toString rsiVal
    ++ ")\n        MACD: " ++ macd

/-- The fixed instruction tail of the prompt f-string (app.py lines 162-170). -/
def promptTail : String :=
  "\n\n        Provide output in this structure:\n        1. Company Overview\n        2. Financial Health\n        3. Growth Outlook\n        4. Key Risks\n        5. News Sentiment\n        6. Technical Trend Summary\n        7. Final Verdict: Bullish / Bearish / Neutral\n        "

/-- The full prompt f-string of app.py lines 139-170. -/
def buildPrompt (name sector industry market_cap rev profit pe pb roe debt
    news_text sma rsiSig : String) (rsiVal : ℚ) (macd : String) : String :=
  promptFunds name sector industry market_cap rev profit pe pb roe debt ++
    (newsHeadlinesLabel ++ (news_text ++ (technicalsLabel ++
      (promptTech sma rsiSig rsiVal macd ++ promptTail))))

/-- Everything the pipeline hands to the narrative-generation stage. -/
structure Output where
  news_text : String
  tech : Technicals
  prompt : String

/-- One successful pass of the button action after `ticker.info` succeeded:
fundamentals are read with `"N/A"` defaults, news and technicals are degraded
locally on failure, and the prompt is assembled. -/
def buildOutput (info : InfoDict) (newsRes : Option (List NewsItem))
    (histRes : Option (List ℚ)) : Output :=
  let news_text := buildNewsText newsRes
  let t := buildTechnicals histRes
  { news_text := news_text
    tech := t
    prompt := buildPrompt (infoGet info "longName") (infoGet info "sector")
      (infoGet info "industry") (infoGet info "marketCap") (infoGet info "totalRevenue")
      (infoGet info "grossProfits") (infoGet info "trailingPE") (infoGet info "priceToBook")
      (infoGet info "returnOnEquity") (infoGet info "debtToEquity")
      news_text t.sma_signal t.rsi_signal t.rsi t.macd_signal }

/-- The whole button action (app.py lines 25-172) up to the narrative call.
`ticker.info` (line 33) is not wrapped in any `try`, so its failure (`none`)
aborts the run; every other gateway failure is degraded locally. -/
def runAnalysis : Option InfoDict → Option (List NewsItem) → Option (List ℚ) → Option Output
  | none, _, _ => none
  | some info, newsRes, histRes => some (buildOutput info newsRes histRes)

/-! ## Basic facts about the trend signal -/

theorem nanGT_none (x : Option ℚ) : nanGT x none = false := by
  cases x <;> rfl

theorem isEmpty_false_of_ne_nil {α : Type} {l : List α} (h : l ≠ []) :
    l.isEmpty = false := by
  cases l with
  | nil => exact absurd rfl h
  | cons a t => rfl

/-- C1: for every non-empty price series the trend signal is one of exactly the two
labels, and whenever both rolling means are defined it is the bullish label
precisely when the 50-period mean is strictly greater than the 200-period mean. -/
theorem sma_signal_dichotomy (prices : List ℚ) (h : prices ≠ []) :
    (sma_signal prices = some "Bullish (Golden Cross Trend)" ∨
     sma_signal prices = some "Bearish (Below Long Term Trend)") ∧
    (∀ a b, smaLast 50 prices = some a → smaLast 200 prices = some b →
      (sma_signal prices = some "Bullish (Golden Cross Trend)" ↔ b < a)) := by
  have hne : prices.isEmpty = false := isEmpty_false_of_ne_nil h
  constructor
  · by_cases hb : nanGT (smaLast 50 prices) (smaLast 200 prices)
    · left; simp [sma_signal, hne, hb]
    · right; simp [sma_signal, hne, hb]
  · intro a b ha hb
    by_cases hba : b < a
    · simp [sma_signal, hne, ha, hb, nanGT, hba]
    · simp [sma_signal, hne, ha, hb, nanGT, hba]

/-- Witness for `sma_signal_dichotomy` at the singleton series `[1]`. -/
theorem sma_signal_dichotomy_witness :
    (([(1 : ℚ)] : List ℚ) ≠ []) ∧
    ((sma_signal [(1 : ℚ)] = some "Bullish (Golden Cross Trend)" ∨
      sma_signal [(1 : ℚ)] = some "Bearish (Below Long Term Trend)") ∧
     (∀ a b, smaLast 50 [(1 : ℚ)] = some a → smaLast 200 [(1 : ℚ)] = some b →
       (sma_signal [(1 : ℚ)] = some "Bullish (Golden Cross Trend)" ↔ b < a))) :=
  ⟨by decide, sma_signal_dichotomy [(1 : ℚ)] (by decide)⟩

/-- C10: a non-empty series shorter than 200 observations always classifies as the
bearish trend label, because the 200-period rolling mean is NaN and the strict
comparison with NaN is false. -/
theorem short_series_bearish (prices : List ℚ) (h1 : prices ≠ [])
    (h2 : prices.length < 200) :
    sma_signal prices = some "Bearish (Below Long Term Trend)" := by
  have hne : prices.isEmpty = false := isEmpty_false_of_ne_nil h1
  have h200 : smaLast 200 prices = none := by
    simp [smaLast, h2]
  have hfalse : nanGT (smaLast 50 prices) (smaLast 200 prices) = false := by
    rw [h200]; exact nanGT_none _
  simp [sma_signal, hne, hfalse]

/-- Witness for `short_series_bearish` at the singleton series `[2]`. -/
theorem short_series_bearish_witness :
    (([(2 : ℚ)] : List ℚ) ≠ [] ∧ ([(2 : ℚ)] : List ℚ).length < 200) ∧
    sma_signal [(2 : ℚ)] = some "Bearish (Below Long Term Trend)" :=
  ⟨⟨by decide, by decide⟩, short_series_bearish [(2 : ℚ)] (by decide) (by decide)⟩

/-! ## Length-one series (C8) -/

/-- C8: on a price series of length exactly 1 all three signal derivations return
defined (degenerate but non-crashing) label values. -/
theorem length_one_defined (p : ℚ) :
    sma_signal [p] = some "Bearish (Below Long Term Trend)" ∧
    rsi_signal [p] = some "Neutral Momentum" ∧
    macd_signal [p] = some "Bearish Momentum" := by
  refine ⟨?_, ?_, ?_⟩
  · have h50 : smaLast 50 [p] = none := by simp [smaLast]
    simp [sma_signal, h50, nanGT]
  · have hw : rsiWindow [p] = [] := by simp [rsiWindow, priceChanges]
    have hg : avgGain [p] = 0 := by simp [avgGain, hw]
    have hl : avgLoss [p] = 0 := by simp [avgLoss, hw]
    simp [rsi_signal, rsi, hg, hl]
    norm_num
  · simp [macd_signal, macdLine, signalLine, emaSeries, emaFrom]

/-! ## Pipeline error handling (C3, C4, C9) -/

/-- C4 counterexample: a failure (exception) of the fundamentals fetch
`ticker.info` aborts the whole analysis, even though news and price history are
available, because line 33 of app.py sits outside every `try` block. -/
theorem info_fetch_failure_aborts :
    runAnalysis none (some []) (some []) = none := rfl

/-- C4 (amended): whenever the fundamentals fetch itself does not raise, the
pipeline always completes — failures or empty results of the news and history
calls, and an empty fundamentals dictionary, proceed with placeholder values
(`"N/A"` fundamentals, degraded news text and technicals) instead of aborting. -/
theorem pipeline_proceeds (info : InfoDict) (newsRes : Option (List NewsItem))
    (histRes : Option (List ℚ)) :
    (runAnalysis (some info) newsRes histRes).isSome = true ∧
    (runAnalysis (some ([] : InfoDict)) newsRes histRes).map Output.prompt =
      some (buildPrompt "N/A" "N/A" "N/A" "N/A" "N/A" "N/A" "N/A" "N/A" "N/A" "N/A"
        (buildNewsText newsRes) (buildTechnicals histRes).sma_signal
        (buildTechnicals histRes).rsi_signal (buildTechnicals histRes).rsi
        (buildTechnicals histRes).macd_signal) :=
  ⟨rfl, rfl⟩

/-- C3: a technicals failure (`none`, covering a history-fetch or indicator
exception anywhere in the `try` block) or an empty price history degrades all
three signals to `"N/A"` and the oscillator value to `0`, and the pipeline still
reaches the narrative stage with exactly those values embedded in the prompt. -/
theorem tech_failure_degrades (info : InfoDict) (newsRes : Option (List NewsItem))
    (histRes : Option (List ℚ)) (h : histRes = none ∨ histRes = some []) :
    ∃ out, runAnalysis (some info) newsRes histRes = some out ∧
      out.tech.sma_signal = "N/A" ∧ out.tech.rsi_signal = "N/A" ∧
      out.tech.macd_signal = "N/A" ∧ out.tech.rsi = 0 ∧
      out.prompt = buildPrompt (infoGet info "longName") (infoGet info "sector")
        (infoGet info "industry") (infoGet info "marketCap") (infoGet info "totalRevenue")
        (infoGet info "grossProfits") (infoGet info "trailingPE") (infoGet info "priceToBook")
        (infoGet info "returnOnEquity") (infoGet info "debtToEquity")
        (buildNewsText newsRes) "N/A" "N/A" 0 "N/A" ∧
      promptTech "N/A" "N/A" 0 "N/A" =
        "SMA Trend: N/A\n        RSI: N/A (0)\n        MACD: N/A" := by
  rcases h with h | h <;> subst h <;>
    exact ⟨_, rfl, rfl, rfl, rfl, rfl, rfl, by decide⟩

/-- Witness for `tech_failure_degrades`: empty fundamentals, empty news list and a
failed history fetch. -/
theorem tech_failure_degrades_witness :
    ((none : Option (List ℚ)) = none ∨ (none : Option (List ℚ)) = some []) ∧
    (∃ out, runAnalysis (some ([] : InfoDict)) (some []) none = some out ∧
      out.tech.sma_signal = "N/A" ∧ out.tech.rsi_signal = "N/A" ∧
      out.tech.macd_signal = "N/A" ∧ out.tech.rsi = 0 ∧
      out.prompt = buildPrompt (infoGet [] "longName") (infoGet [] "sector")
        (infoGet [] "industry") (infoGet [] "marketCap") (infoGet [] "totalRevenue")
        (infoGet [] "grossProfits") (infoGet [] "trailingPE") (infoGet [] "priceToBook")
        (infoGet [] "returnOnEquity") (infoGet [] "debtToEquity")
        (buildNewsText (some [])) "N/A" "N/A" 0 "N/A" ∧
      promptTech "N/A" "N/A" 0 "N/A" =
        "SMA Trend: N/A\n        RSI: N/A (0)\n        MACD: N/A") :=
  ⟨Or.inl rfl, tech_failure_degrades [] (some []) none (Or.inl rfl)⟩

/-- C9: a news failure or an empty news list degrades the news text to exactly the
fixed placeholder, the pipeline continues, and the assembled prompt contains that
exact string right after the News Headlines label. -/
theorem news_failure_placeholder (info : InfoDict) (newsRes : Option (List NewsItem))
    (histRes : Option (List ℚ)) (h : newsRes = none ∨ newsRes = some []) :
    ∃ out, runAnalysis (some info) newsRes histRes = some out ∧
      out.news_text = "No major recent news available." ∧
      out.prompt = promptFunds (infoGet info "longName") (infoGet info "sector")
        (infoGet info "industry") (infoGet info "marketCap") (infoGet info "totalRevenue")
        (infoGet info "grossProfits") (infoGet info "trailingPE") (infoGet info "priceToBook")
        (infoGet info "returnOnEquity") (infoGet info "debtToEquity") ++
        (newsHeadlinesLabel ++ ("No major recent news available." ++ (technicalsLabel ++
          (promptTech (buildTechnicals histRes).sma_signal (buildTechnicals histRes).rsi_signal
            (buildTechnicals histRes).rsi (buildTechnicals histRes).macd_signal ++
            promptTail)))) := by
  rcases h with h | h <;> subst h <;> exact ⟨_, rfl, rfl, rfl⟩

/-- Witness for `news_failure_placeholder`: empty fundamentals, empty news list and
an empty price history. -/
theorem news_failure_placeholder_witness :
    ((some ([] : List NewsItem)) = none ∨ (some ([] : List NewsItem)) = some []) ∧
    (∃ out, runAnalysis (some ([] : InfoDict)) (some []) (some []) = some out ∧
      out.news_text = "No major recent news available." ∧
      out.prompt = promptFunds (infoGet [] "longName") (infoGet [] "sector")
        (infoGet [] "industry") (infoGet [] "marketCap") (infoGet [] "totalRevenue")
        (infoGet [] "grossProfits") (infoGet [] "trailingPE") (infoGet [] "priceToBook")
        (infoGet [] "returnOnEquity") (infoGet [] "debtToEquity") ++
        (newsHeadlinesLabel ++ ("No major recent news available." ++ (technicalsLabel ++
          (promptTech (buildTechnicals (some [])).sma_signal (buildTechnicals (some [])).rsi_signal
            (buildTechnicals (some [])).rsi (buildTechnicals (some [])).macd_signal ++
            promptTail))))) :=
  ⟨Or.inr rfl, news_failure_placeholder [] (some []) (some []) (Or.inr rfl)⟩

/-! ## The oscillator on rising and constant windows (C6, C7) -/

theorem prices_ne_nil_of_rsiWindow_ne_nil {prices : List ℚ}
    (hw : rsiWindow prices ≠ []) : prices ≠ [] := by
  intro he
  subst he
  simp [rsiWindow, priceChanges] at hw

/-- Shared core of the rising-window analysis: with a non-empty all-gain trailing
window the average loss is zero, the oscillator is the handled value 100 and the
classification is overbought. -/
theorem overbought_of_pos_window (prices : List ℚ) (hw : rsiWindow prices ≠ [])
    (hpos : ∀ c ∈ rsiWindow prices, 0 < c) :
    avgLoss prices = 0 ∧ rsi prices = 100 ∧
    rsi_signal prices = some "Overbought – Possible Correction" := by
  have hloss : avgLoss prices = 0 := by
    have hz : ((rsiWindow prices).map (fun c => max (-c) 0)).sum = 0 := by
      apply List.sum_eq_zero
      intro x hx
      rcases List.mem_map.mp hx with ⟨c, hc, rfl⟩
      have : -c ≤ 0 := by linarith [hpos c hc]
      simp [max_eq_right this]
    simp [avgLoss, hz]
  have hmap : (rsiWindow prices).map (fun c => max c 0) = rsiWindow prices := by
    have : ∀ c ∈ rsiWindow prices, max c 0 = c := fun c hc => max_eq_left (le_of_lt (hpos c hc))
    calc (rsiWindow prices).map (fun c => max c 0)
        = (rsiWindow prices).map id := List.map_congr_left fun c hc => this c hc
      _ = rsiWindow prices := List.map_id _
  have hgain : 0 < avgGain prices := by
    have hsum : 0 < (rsiWindow prices).sum := List.sum_pos _ hpos hw
    have : 0 < ((rsiWindow prices).map (fun c => max c 0)).sum := by rw [hmap]; exact hsum
    exact div_pos this (by norm_num)
  have hrsi : rsi prices = 100 := by
    rw [rsi, if_pos hloss, if_neg (ne_of_gt hgain)]
  refine ⟨hloss, hrsi, ?_⟩
  have hne : prices.isEmpty = false :=
    isEmpty_false_of_ne_nil (prices_ne_nil_of_rsiWindow_ne_nil hw)
  rw [rsi_signal, hne]
  simp [hrsi]
  norm_num

/-- C6: when every change in the trailing oscillator window is a gain (a
monotonically rising window), the average loss is zero and the oscillator is the
handled value 100 — fully overbought — rather than a division-by-zero crash. -/
theorem rising_window_overbought (prices : List ℚ) (hw : rsiWindow prices ≠ [])
    (hpos : ∀ c ∈ rsiWindow prices, 0 < c) :
    avgLoss prices = 0 ∧ rsi prices = 100 ∧
    rsi_signal prices = some "Overbought – Possible Correction" :=
  overbought_of_pos_window prices hw hpos

/-- Witness for `rising_window_overbought` at the rising series `[1, 2]`. -/
theorem rising_window_overbought_witness :
    (rsiWindow [(1 : ℚ), 2] ≠ [] ∧ ∀ c ∈ rsiWindow [(1 : ℚ), 2], 0 < c) ∧
    (avgLoss [(1 : ℚ), 2] = 0 ∧ rsi [(1 : ℚ), 2] = 100 ∧
     rsi_signal [(1 : ℚ), 2] = some "Overbought – Possible Correction") :=
  ⟨⟨by decide, by decide⟩, rising_window_overbought [(1 : ℚ), 2] (by decide) (by decide)⟩

theorem priceChanges_replicate (n : ℕ) (p : ℚ) :
    priceChanges (List.replicate n p) = List.replicate (n - 1) 0 := by
  cases n with
  | zero => rfl
  | succ m =>
    rw [priceChanges]
    have hd : (List.replicate (m + 1) p).drop 1 = List.replicate m p := by
      rw [List.replicate_succ]
      rfl
    rw [hd]
    have : ∀ (k : ℕ), List.zipWith (· - ·) (List.replicate k p) (List.replicate (k + 1) p) =
        List.replicate k (0 : ℚ) := by
      intro k
      induction k with
      | zero => rfl
      | succ j ih =>
        rw [List.replicate_succ, List.replicate_succ (n := j + 1), List.zipWith_cons_cons,
          sub_self, List.replicate_succ]
        exact congrArg _ ih
    simp [this m]

/-- C7: on a constant price series of any positive length the oscillator is defined
(no division-by-zero crash), takes the neutral value 50 (the
`avgGain = avgLoss = 0` convention) and classifies as neutral momentum. -/
theorem const_series_neutral (p : ℚ) (n : ℕ) (h : 1 ≤ n) :
    rsi (List.replicate n p) = 50 ∧
    rsi_signal (List.replicate n p) = some "Neutral Momentum" := by
  have hm : rsiWindow (List.replicate n p) = List.replicate ((n - 1) - ((n - 1) - 14)) 0 := by
    rw [rsiWindow, priceChanges_replicate, List.length_replicate, List.drop_replicate]
  have hg : avgGain (List.replicate n p) = 0 := by
    simp [avgGain, hm]
  have hl : avgLoss (List.replicate n p) = 0 := by
    simp [avgLoss, hm]
  have hrsi : rsi (List.replicate n p) = 50 := by
    rw [rsi, if_pos hl, if_pos hg]
  have hne : (List.replicate n p).isEmpty = false := by
    cases n with
    | zero => omega
    | succ m => rw [List.replicate_succ]; rfl
  refine ⟨hrsi, ?_⟩
  rw [rsi_signal, hne]
  simp [hrsi]
  norm_num

/-- Witness for `const_series_neutral` at the constant series `[3]`. -/
theorem const_series_neutral_witness :
    1 ≤ 1 ∧
    (rsi (List.replicate 1 (3 : ℚ)) = 50 ∧
     rsi_signal (List.replicate 1 (3 : ℚ)) = some "Neutral Momentum") :=
  ⟨by decide, const_series_neutral 3 1 (by decide)⟩

/-! ## The EMA list computation agrees with the spec's recurrence (C2) -/

theorem emaFrom_length (k prev : ℚ) (l : List ℚ) :
    (emaFrom k prev l).length = l.length := by
  induction l generalizing prev with
  | nil => rfl
  | cons x xs ih => simp [emaFrom, ih]

theorem emaSeries_length (w : ℕ) (prices : List ℚ) :
    (emaSeries w prices).length = prices.length := by
  cases prices with
  | nil => rfl
  | cons x xs => simp [emaSeries, emaFrom_length]

theorem emaFrom_getD_succ (k : ℚ) (l : List ℚ) (prev : ℚ) (t : ℕ)
    (h : t + 1 < l.length) :
    (emaFrom k prev l).getD (t + 1) 0 =
      l.getD (t + 1) 0 * k + (emaFrom k prev l).getD t 0 * (1 - k) := by
  induction l generalizing prev t with
  | nil => simp at h
  | cons x xs ih =>
    cases t with
    | zero =>
      cases xs with
      | nil => simp at h
      | cons y ys => simp [emaFrom]
    | succ s =>
      have hs : s + 1 < xs.length := by simpa using h
      simpa [emaFrom] using ih (x * k + prev * (1 - k)) s hs

theorem emaSeries_getD_succ (w : ℕ) (prices : List ℚ) (t : ℕ)
    (h : t + 1 < prices.length) :
    (emaSeries w prices).getD (t + 1) 0 =
      prices.getD (t + 1) 0 * (2 / ((w : ℚ) + 1)) +
        (emaSeries w prices).getD t 0 * (1 - 2 / ((w : ℚ) + 1)) := by
  cases prices with
  | nil => simp at h
  | cons x xs =>
    cases t with
    | zero =>
      cases xs with
      | nil => simp at h
      | cons y ys => simp [emaSeries, emaFrom]
    | succ s =>
      have hs : s + 1 < xs.length := by simpa using h
      simpa [emaSeries] using emaFrom_getD_succ (2 / ((w : ℚ) + 1)) xs x s hs

theorem emaSeries_getD_eq_emaRecF (w : ℕ) (prices : List ℚ) (t : ℕ)
    (h : t < prices.length) :
    (emaSeries w prices).getD t 0 =
      emaRecF (2 / ((w : ℚ) + 1)) (fun i => prices.getD i 0) t := by
  induction t with
  | zero =>
    cases prices with
    | nil => simp at h
    | cons x xs => simp [emaSeries, emaRecF]
  | succ s ih =>
    have hs : s < prices.length := Nat.lt_of_succ_lt h
    rw [emaSeries_getD_succ w prices s h, ih hs]
    rfl

theorem zipWith_getD (f : ℚ → ℚ → ℚ) (l1 l2 : List ℚ) (t : ℕ)
    (h1 : t < l1.length) (h2 : t < l2.length) :
    (List.zipWith f l1 l2).getD t 0 = f (l1.getD t 0) (l2.getD t 0) := by
  induction l1 generalizing l2 t with
  | nil => simp at h1
  | cons x xs ih =>
    cases l2 with
    | nil => simp at h2
    | cons y ys =>
      cases t with
      | zero => simp
      | succ s =>
        have hs1 : s < xs.length := by simpa using h1
        have hs2 : s < ys.length := by simpa using h2
        simpa using ih ys s hs1 hs2

theorem macdLine_length (prices : List ℚ) :
    (macdLine prices).length = prices.length := by
  simp [macdLine, emaSeries_length]

theorem macdLine_getD (prices : List ℚ) (t : ℕ) (h : t < prices.length) :
    (macdLine prices).getD t 0 =
      (emaSeries 12 prices).getD t 0 - (emaSeries 26 prices).getD t 0 := by
  exact zipWith_getD _ _ _ t (by rw [emaSeries_length]; exact h)
    (by rw [emaSeries_length]; exact h)

theorem emaRecF_congr (k : ℚ) (f g : ℕ → ℚ) (t : ℕ) (h : ∀ i, i ≤ t → f i = g i) :
    emaRecF k f t = emaRecF k g t := by
  induction t with
  | zero => simpa [emaRecF] using h 0 (by omega)
  | succ s ih =>
    rw [emaRecF, emaRecF, h (s + 1) (by omega), ih (fun i hi => h i (by omega))]

theorem getLast?_eq_getD {l : List ℚ} (h : l ≠ []) :
    l.getLast? = some (l.getD (l.length - 1) 0) := by
  have hpos : 0 < l.length := List.length_pos.mpr h
  have hlt : l.length - 1 < l.length := by omega
  rw [List.getLast?_eq_getElem?, List.getElem?_eq_getElem hlt,
    List.getD_eq_getElem l 0 hlt]

/-- C2: the convergence signal is computed from exponential moving averages obeying
the recurrence `ema[0] = price[0]`, `ema[t] = price[t]*k + ema[t-1]*(1-k)` with
`k = 2/(w+1)`, and on every non-empty series its value is `"Bullish Momentum"`
exactly when the most recent value of the fast(12)-minus-slow(26) convergence line
is strictly greater than the most recent value of the window-9 EMA signal line of
that difference, else `"Bearish Momentum"`. -/
theorem macd_signal_spec (prices : List ℚ) (h : prices ≠ []) :
    (∀ w t, t < prices.length →
      (emaSeries w prices).getD t 0 =
        emaRecF (2 / ((w : ℚ) + 1)) (fun i => prices.getD i 0) t) ∧
    macd_signal prices = some (
      if emaRecF (2 / ((12 : ℚ) + 1)) (fun i => prices.getD i 0) (prices.length - 1) -
           emaRecF (2 / ((26 : ℚ) + 1)) (fun i => prices.getD i 0) (prices.length - 1) >
         emaRecF (2 / ((9 : ℚ) + 1))
           (fun t => emaRecF (2 / ((12 : ℚ) + 1)) (fun i => prices.getD i 0) t -
             emaRecF (2 / ((26 : ℚ) + 1)) (fun i => prices.getD i 0) t)
           (prices.length - 1)
      then "Bullish Momentum" else "Bearish Momentum") := by
  refine ⟨fun w t ht => emaSeries_getD_eq_emaRecF w prices t ht, ?_⟩
  have hpos : 0 < prices.length := List.length_pos.mpr h
  have hn1 : prices.length - 1 < prices.length := by omega
  have hmne : macdLine prices ≠ [] := by
    intro he
    have := macdLine_length prices
    rw [he] at this
    simp at this
    omega
  have hsne : signalLine prices ≠ [] := by
    intro he
    have h1 : (signalLine prices).length = (macdLine prices).length :=
      emaSeries_length 9 (macdLine prices)
    rw [he, macdLine_length prices] at h1
    simp at h1
    omega
  have hml : (macdLine prices).getLast? =
      some ((macdLine prices).getD (prices.length - 1) 0) := by
    rw [getLast?_eq_getD hmne, macdLine_length]
  have hsl : (signalLine prices).getLast? =
      some ((signalLine prices).getD (prices.length - 1) 0) := by
    rw [getLast?_eq_getD hsne, signalLine, emaSeries_length, macdLine_length]
  have hcast12 : ((12 : ℕ) : ℚ) = (12 : ℚ) := by norm_num
  have hcast26 : ((26 : ℕ) : ℚ) = (26 : ℚ) := by norm_num
  have hcast9 : ((9 : ℕ) : ℚ) = (9 : ℚ) := by norm_num
  have hmval : (macdLine prices).getD (prices.length - 1) 0 =
      emaRecF (2 / ((12 : ℚ) + 1)) (fun i => prices.getD i 0) (prices.length - 1) -
        emaRecF (2 / ((26 : ℚ) + 1)) (fun i => prices.getD i 0) (prices.length - 1) := by
    rw [macdLine_getD prices _ hn1, emaSeries_getD_eq_emaRecF 12 prices _ hn1,
      emaSeries_getD_eq_emaRecF 26 prices _ hn1, hcast12, hcast26]
  have hsval : (signalLine prices).getD (prices.length - 1) 0 =
      emaRecF (2 / ((9 : ℚ) + 1))
        (fun t => emaRecF (2 / ((12 : ℚ) + 1)) (fun i => prices.getD i 0) t -
          emaRecF (2 / ((26 : ℚ) + 1)) (fun i => prices.getD i 0) t)
        (prices.length - 1) := by
    rw [signalLine, emaSeries_getD_eq_emaRecF 9 (macdLine prices) _
      (by rw [macdLine_length]; exact hn1), hcast9]
    apply emaRecF_congr
    intro i hi
    have hi' : i < prices.length := by omega
    rw [macdLine_getD prices i hi', emaSeries_getD_eq_emaRecF 12 prices i hi',
      emaSeries_getD_eq_emaRecF 26 prices i hi', hcast12, hcast26]
  rw [macd_signal, hml, hsl, hmval, hsval]

/-- Witness for `macd_signal_spec` at the series `[1, 2]`. -/
theorem macd_signal_spec_witness :
    (([(1 : ℚ), 2] : List ℚ) ≠ []) ∧
    ((∀ w t, t < ([(1 : ℚ), 2] : List ℚ).length →
      (emaSeries w [(1 : ℚ), 2]).getD t 0 =
        emaRecF (2 / ((w : ℚ) + 1)) (fun i => ([(1 : ℚ), 2] : List ℚ).getD i 0) t) ∧
    macd_signal [(1 : ℚ), 2] = some (
      if emaRecF (2 / ((12 : ℚ) + 1)) (fun i => ([(1 : ℚ), 2] : List ℚ).getD i 0)
           (([(1 : ℚ), 2] : List ℚ).length - 1) -
           emaRecF (2 / ((26 : ℚ) + 1)) (fun i => ([(1 : ℚ), 2] : List ℚ).getD i 0)
             (([(1 : ℚ), 2] : List ℚ).length - 1) >
         emaRecF (2 / ((9 : ℚ) + 1))
           (fun t => emaRecF (2 / ((12 : ℚ) + 1)) (fun i => ([(1 : ℚ), 2] : List ℚ).getD i 0) t -
             emaRecF (2 / ((26 : ℚ) + 1)) (fun i => ([(1 : ℚ), 2] : List ℚ).getD i 0) t)
           (([(1 : ℚ), 2] : List ℚ).length - 1)
      then "Bullish Momentum" else "Bearish Momentum")) :=
  ⟨by decide, macd_signal_spec [(1 : ℚ), 2] (by decide)⟩

/-! ## Strictly increasing series (C5) -/

theorem sum_le_length_mul (A : List ℚ) (b : ℚ) (h : ∀ a ∈ A, a ≤ b) :
    A.sum ≤ (A.length : ℚ) * b := by
  induction A with
  | nil => simp
  | cons x xs ih =>
    have hx := h x (by simp)
    have hxs := ih (fun a ha => h a (by simp [ha]))
    simp only [List.sum_cons, List.length_cons]
    push_cast
    linarith

theorem sum_lt_length_mul (A : List ℚ) (b : ℚ) (hA : A ≠ []) (h : ∀ a ∈ A, a < b) :
    A.sum < (A.length : ℚ) * b := by
  cases A with
  | nil => exact absurd rfl hA
  | cons x xs =>
    have hx := h x (by simp)
    have hxs := sum_le_length_mul xs b (fun a ha => le_of_lt (h a (by simp [ha])))
    simp only [List.sum_cons, List.length_cons]
    push_cast
    linarith

theorem length_mul_le_mul_sum (B : List ℚ) (c d : ℚ) (h : ∀ x ∈ B, c ≤ d * x) :
    (B.length : ℚ) * c ≤ d * B.sum := by
  induction B with
  | nil => simp
  | cons x xs ih =>
    have hx := h x (by simp)
    have hxs := ih (fun a ha => h a (by simp [ha]))
    simp only [List.sum_cons, List.length_cons]
    push_cast
    rw [mul_add]
    linarith

theorem length_mul_lt_mul_sum (B : List ℚ) (c d : ℚ) (hB : B ≠ [])
    (h : ∀ x ∈ B, c < d * x) :
    (B.length : ℚ) * c < d * B.sum := by
  cases B with
  | nil => exact absurd rfl hB
  | cons x xs =>
    have hx := h x (by simp)
    have hxs := length_mul_le_mul_sum xs c d (fun a ha => le_of_lt (h a (by simp [ha])))
    simp only [List.sum_cons, List.length_cons]
    push_cast
    rw [mul_add]
    linarith

/-- On a strictly increasing series of length at least 200, the mean of the last 50
prices strictly exceeds the mean of the last 200 prices, so the trend is bullish. -/
theorem sma_signal_of_strict_mono (prices : List ℚ) (h200 : 200 ≤ prices.length)
    (hmono : List.Pairwise (· < ·) prices) :
    sma_signal prices = some "Bullish (Golden Cross Trend)" := by
  have hA : ((prices.drop (prices.length - 200)).take 150).length = 150 := by
    simp [List.length_take, List.length_drop]
    omega
  have hB : (prices.drop (prices.length - 50)).length = 50 := by
    simp [List.length_drop]
    omega
  have hAB : prices.drop (prices.length - 200) =
      (prices.drop (prices.length - 200)).take 150 ++ prices.drop (prices.length - 50) := by
    have h1 : ((prices.drop (prices.length - 200)).take 150) ++
        ((prices.drop (prices.length - 200)).drop 150) = prices.drop (prices.length - 200) :=
      List.take_append_drop _ _
    have h2 : (prices.drop (prices.length - 200)).drop 150 =
        prices.drop (prices.length - 50) := by
      rw [List.drop_drop]
      have hx : prices.length - 200 + 150 = prices.length - 50 := by omega
      rw [hx]
    rw [← h2]
    exact h1.symm
  set A := (prices.drop (prices.length - 200)).take 150 with hAdef
  set B := prices.drop (prices.length - 50) with hBdef
  have hPW : (prices.drop (prices.length - 200)).Pairwise (· < ·) :=
    hmono.sublist (List.drop_sublist _ _)
  rw [hAB] at hPW
  have hcross : ∀ a ∈ A, ∀ b ∈ B, a < b := (List.pairwise_append.mp hPW).2.2
  have hAne : A ≠ [] := by
    intro he
    rw [he] at hA
    simp at hA
  have hBne : B ≠ [] := by
    intro he
    rw [he] at hB
    simp at hB
  have key : (50 : ℚ) * A.sum < 150 * B.sum := by
    have h1 : ∀ b ∈ B, A.sum < 150 * b := by
      intro b hb
      have := sum_lt_length_mul A b hAne (fun a ha => hcross a ha b hb)
      rw [hA] at this
      push_cast at this
      linarith
    have h2 := length_mul_lt_mul_sum B A.sum 150 hBne h1
    rw [hB] at h2
    push_cast at h2
    linarith
  have h50 : smaLast 50 prices = some (B.sum / ((50 : ℕ) : ℚ)) := by
    rw [smaLast, if_neg (by push_neg; omega)]
  have h200' : smaLast 200 prices = some ((A.sum + B.sum) / ((200 : ℕ) : ℚ)) := by
    rw [smaLast, if_neg (by push_neg; omega), hAB, List.sum_append]
  have hlt : (A.sum + B.sum) / ((200 : ℕ) : ℚ) < B.sum / ((50 : ℕ) : ℚ) := by
    push_cast
    rw [div_lt_div_iff₀ (by norm_num) (by norm_num)]
    linarith
  have hgt : nanGT (smaLast 50 prices) (smaLast 200 prices) = true := by
    rw [h50, h200']
    simp only [nanGT]
    exact decide_eq_true hlt
  have hne : prices.isEmpty = false := by
    cases prices with
    | nil => simp at h200
    | cons x xs => rfl
  rw [sma_signal, hne]
  simp [hgt]

theorem pairwise_getD_lt (prices : List ℚ) (hmono : List.Pairwise (· < ·) prices)
    (i j : ℕ) (hij : i < j) (hj : j < prices.length) :
    prices.getD i 0 < prices.getD j 0 := by
  have hi : i < prices.length := by omega
  have := List.pairwise_iff_get.mp hmono ⟨i, hi⟩ ⟨j, hj⟩ hij
  rw [List.getD_eq_getElem prices 0 hi, List.getD_eq_getElem prices 0 hj]
  simpa using this

theorem priceChanges_length (prices : List ℚ) :
    (priceChanges prices).length = prices.length - 1 := by
  simp [priceChanges]

theorem priceChanges_pos (prices : List ℚ) (hmono : List.Pairwise (· < ·) prices) :
    ∀ c ∈ priceChanges prices, 0 < c := by
  intro c hc
  obtain ⟨i, hi, rfl⟩ := List.mem_iff_getElem.mp hc
  rw [priceChanges_length] at hi
  have hi1 : i + 1 < prices.length := by omega
  have hd : (priceChanges prices)[i] = (priceChanges prices).getD i 0 :=
    (List.getD_eq_getElem _ 0 (by rw [priceChanges_length]; omega)).symm
  rw [hd, priceChanges, zipWith_getD _ _ _ i
    (by simp [List.length_drop]; omega) (by omega)]
  have hdrop : (prices.drop 1).getD i 0 = prices.getD (i + 1) 0 := by
    rw [List.getD_eq_getElem _ 0 (by simp [List.length_drop]; omega),
      List.getD_eq_getElem prices 0 hi1]
    simp [List.getElem_drop]
  rw [hdrop]
  have := pairwise_getD_lt prices hmono i (i + 1) (by omega) hi1
  linarith

theorem rsiWindow_pos_of_strict_mono (prices : List ℚ) (h2 : 2 ≤ prices.length)
    (hmono : List.Pairwise (· < ·) prices) :
    rsiWindow prices ≠ [] ∧ ∀ c ∈ rsiWindow prices, 0 < c := by
  constructor
  · have : (rsiWindow prices).length = (prices.length - 1) - ((prices.length - 1) - 14) := by
      simp [rsiWindow, priceChanges_length]
    intro he
    rw [he] at this
    simp at this
    omega
  · intro c hc
    exact priceChanges_pos prices hmono c
      (List.mem_of_mem_drop hc)

/-! The EMA with a larger smoothing factor stays strictly above the EMA with a
smaller one on a strictly increasing input, and both stay at or below the input. -/

theorem emaRecF_le_of_mono (k : ℚ) (f : ℕ → ℚ) (hk1 : k < 1) (t : ℕ)
    (hf : ∀ i, i < t → f i < f (i + 1)) : emaRecF k f t ≤ f t := by
  induction t with
  | zero => exact le_of_eq rfl
  | succ s ih =>
    have hs : emaRecF k f s ≤ f s := ih (fun i hi => hf i (by omega))
    have hfs : f s < f (s + 1) := hf s (by omega)
    have h1 : emaRecF k f s ≤ f (s + 1) := le_trans hs (le_of_lt hfs)
    have h2 : emaRecF k f s * (1 - k) ≤ f (s + 1) * (1 - k) :=
      mul_le_mul_of_nonneg_right h1 (by linarith)
    have h3 : emaRecF k f (s + 1) = f (s + 1) * k + emaRecF k f s * (1 - k) := rfl
    nlinarith [h2]

theorem emaRecF_lt_emaRecF (k1 k2 : ℚ) (f : ℕ → ℚ) (hk21 : k2 < k1)
    (hk1 : k1 < 1) (t : ℕ) (ht : 1 ≤ t) (hf : ∀ i, i < t → f i < f (i + 1)) :
    emaRecF k2 f t < emaRecF k1 f t := by
  induction t with
  | zero => omega
  | succ s ih =>
    cases s with
    | zero =>
      have hf0 : f 0 < f 1 := hf 0 (by omega)
      have e1 : emaRecF k1 f 1 = f 1 * k1 + f 0 * (1 - k1) := rfl
      have e2 : emaRecF k2 f 1 = f 1 * k2 + f 0 * (1 - k2) := rfl
      rw [e1, e2]
      nlinarith [mul_pos (sub_pos.mpr hk21) (sub_pos.mpr hf0)]
    | succ r =>
      have hih : emaRecF k2 f (r + 1) < emaRecF k1 f (r + 1) :=
        ih (by omega) (fun i hi => hf i (by omega))
      have hle : emaRecF k2 f (r + 1) ≤ f (r + 1) :=
        emaRecF_le_of_mono k2 f (lt_trans hk21 hk1) (r + 1) (fun i hi => hf i (by omega))
      have h2 : emaRecF k2 f (r + 1) < f (r + 2) :=
        lt_of_le_of_lt hle (hf (r + 1) (by omega))
      have g1 : emaRecF k1 f (r + 2) = f (r + 2) * k1 + emaRecF k1 f (r + 1) * (1 - k1) := rfl
      have g2 : emaRecF k2 f (r + 2) = f (r + 2) * k2 + emaRecF k2 f (r + 1) * (1 - k2) := rfl
      rw [g1, g2]
      nlinarith [mul_pos (sub_pos.mpr hk21) (sub_pos.mpr h2),
        mul_nonneg (by linarith : (0 : ℚ) ≤ 1 - k1)
          (by linarith [hih] : (0 : ℚ) ≤ emaRecF k1 f (r + 1) - emaRecF k2 f (r + 1))]

/-- On a strictly increasing series of length at least 2, the most recent
convergence-line value is strictly positive: the fast EMA sits strictly above the
slow EMA. -/
theorem macdLine_getLastD_pos (prices : List ℚ) (h2 : 2 ≤ prices.length)
    (hmono : List.Pairwise (· < ·) prices) :
    0 < (macdLine prices).getLastD 0 := by
  have hmne : macdLine prices ≠ [] := by
    intro he
    have := macdLine_length prices
    rw [he] at this
    simp at this
    omega
  have hgl : (macdLine prices).getLastD 0 =
      (macdLine prices).getD (prices.length - 1) 0 := by
    rw [List.getLastD_eq_getLast?, getLast?_eq_getD hmne, macdLine_length]
    rfl
  have hn1 : prices.length - 1 < prices.length := by omega
  rw [hgl, macdLine_getD prices _ hn1,
    emaSeries_getD_eq_emaRecF 12 prices _ hn1, emaSeries_getD_eq_emaRecF 26 prices _ hn1]
  have hf : ∀ i, i < prices.length - 1 →
      (fun i => prices.getD i 0) i < (fun i => prices.getD i 0) (i + 1) :=
    fun i hi => pairwise_getD_lt prices hmono i (i + 1) (by omega) (by omega)
  have := emaRecF_lt_emaRecF (2 / (((12 : ℕ) : ℚ) + 1)) (2 / (((26 : ℕ) : ℚ) + 1))
    (fun i => prices.getD i 0) (by norm_num) (by norm_num)
    (prices.length - 1) (by omega) hf
  linarith

/-- C5 (amended): on every strictly increasing price series of length at least 200
the trend signal is bullish, the oscillator value is 100 and classifies overbought,
and the most recent convergence-line value is strictly positive.  (The convergence
*signal* can still be `"Bearish Momentum"`: see the counterexample.) -/
theorem strictly_increasing_signals (prices : List ℚ) (h200 : 200 ≤ prices.length)
    (hmono : List.Pairwise (· < ·) prices) :
    sma_signal prices = some "Bullish (Golden Cross Trend)" ∧
    rsi prices = 100 ∧
    rsi_signal prices = some "Overbought – Possible Correction" ∧
    0 < (macdLine prices).getLastD 0 := by
  obtain ⟨hwne, hwpos⟩ := rsiWindow_pos_of_strict_mono prices (by omega) hmono
  obtain ⟨-, hrsi, hsig⟩ := overbought_of_pos_window prices hwne hwpos
  exact ⟨sma_signal_of_strict_mono prices h200 hmono, hrsi, hsig,
    macdLine_getLastD_pos prices (by omega) hmono⟩

/-- A strictly increasing 200-point series: a large jump followed by small steps. -/
def ex5 : List ℚ := 0 :: (List.range 199).map (fun (i : ℕ) => 1000 + (i : ℚ))

set_option maxRecDepth 100000 in
set_option maxHeartbeats 8000000 in
/-- C5 counterexample: `ex5` is strictly increasing with 200 observations, yet its
convergence signal is `"Bearish Momentum"`: after the early jump the convergence
line decays towards its steady state and the lagging signal line sits above it. -/
theorem strictly_increasing_bearish_momentum :
    200 ≤ ex5.length ∧ List.Pairwise (· < ·) ex5 ∧
    macd_signal ex5 = some "Bearish Momentum" := by
  refine ⟨by decide, ?_, ?_⟩
  · rw [ex5, List.pairwise_cons]
    constructor
    · intro x hx
      obtain ⟨i, hi, rfl⟩ := List.mem_map.mp hx
      have hnn : (0 : ℚ) ≤ (i : ℚ) := Nat.cast_nonneg i
      show (0 : ℚ) < 1000 + (i : ℚ)
      linarith
    · rw [List.pairwise_map]
      exact (List.pairwise_lt_range 199).imp (fun {a b} hab => by
        have h : (a : ℚ) < b := Nat.cast_lt.mpr hab
        linarith)
  · decide

/-- A plain strictly increasing 200-point series for the witness. -/
def lin200 : List ℚ := (List.range 200).map (fun (i : ℕ) => (i : ℚ))

set_option maxRecDepth 100000 in
/-- Witness for `strictly_increasing_signals` at `lin200 = [0, 1, ..., 199]`. -/
theorem strictly_increasing_signals_witness :
    (200 ≤ lin200.length ∧ List.Pairwise (· < ·) lin200) ∧
    (sma_signal lin200 = some "Bullish (Golden Cross Trend)" ∧
     rsi lin200 = 100 ∧
     rsi_signal lin200 = some "Overbought – Possible Correction" ∧
     0 < (macdLine lin200).getLastD 0) := by
  have hpw : List.Pairwise (· < ·) lin200 := by
    rw [lin200, List.pairwise_map]
    exact (List.pairwise_lt_range 200).imp (fun {a b} hab => Nat.cast_lt.mpr hab)
  exact ⟨⟨by decide, hpw⟩, strictly_increasing_signals lin200 (by decide) hpw⟩

end StockAnalyst
